import Mathlib

set_option maxRecDepth 10000

/-
Verification development for the amiga-par-to-spi-adapter firmware
(src/rp2350/par_spi.c, src/rp2350/main.c, src/rp2350/main.h).

The host-facing bridge is modelled as a shallow embedding.  Hardware pin
sampling is modelled by a trace: a list of 32-bit GPIO snapshots, one
snapshot consumed per gpio_get_all() (or gpio_get) call executed by the C
code.  A computation that never observes the condition it busy-waits on
runs off the end of its trace and yields `none` (the C code would block
forever, matching the documented no-timeout semantics).  The SPI
peripheral is full duplex and always responds, so it is modelled as a
total function from the exchange index to the response byte.  Every
externally visible action of the code (SPI data-register accesses, bus
drives, pin reconfigurations, mutex operations) is recorded as an event.
-/

namespace AmigaSpi

/-- GPIO number of the host interrupt line (main.h PIN_IRQ). -/
def PIN_IRQ : Nat := 8

/-- GPIO number of the host-driven byte clock (main.h PIN_CLK). -/
def PIN_CLK : Nat := 10

/-- GPIO number of the active-low request line (main.h PIN_REQ). -/
def PIN_REQ : Nat := 11

/-- GPIO number of the SPI slave-select output (main.h PIN_SS). -/
def PIN_SS : Nat := 17

/-- GPIO number of the active-low card-detect input (main.h PIN_CDET). -/
def PIN_CDET : Nat := 20

/-- Externally visible actions of the bridge code in par_spi.c (and the one
cross-core mutex available from main.c, which par_spi.c could call but does
not). -/
inductive Event where
  | spiWr (mosi : Nat)
  | spiRd (miso : Nat)
  | busDriveAll (word : Nat)
  | driveD0 (present : Bool)
  | ssPut (level : Bool)
  | setBaud (fast : Bool)
  | irqDirIn
  | cdetEnable
  | busDirIn
  | busClr
  | spiDrain
  | ledOn
  | ledOff
  | mutexEnter
  | mutexExit
deriving DecidableEq

/-- Whether a transfer ran to its full byte count or was cut short by the
host deasserting REQ (observed high) during a clock-edge wait. -/
inductive Outcome where
  | completed
  | aborted
deriving DecidableEq

/-- Result of running (part of) handle_request: the events performed, how the
run ended, and the unconsumed part of the pin trace. -/
structure RunResult where
  events : List Event
  outcome : Outcome
  rest : List Nat
deriving DecidableEq

/-- par_spi.c handle_request lines 105-112: busy-wait until REQ is observed
low; returns that snapshot and the remaining trace. -/
def wait_req_low : List Nat → Option (Nat × List Nat)
  | [] => none
  | p :: rest =>
    if Nat.testBit p PIN_REQ then wait_req_low rest else some (p, rest)

/-- Result of one clock-edge busy-wait: either a snapshot whose CLK level
differs from prev_clk, or an abort because REQ was observed high first. -/
inductive ClkWait where
  | edge (pins : Nat) (rest : List Nat)
  | aborted (rest : List Nat)
deriving DecidableEq

/-- The clock-edge busy-wait pattern of par_spi.c (e.g. lines 126-133):
loop sampling the pins; break on a CLK level change, return (abort) if REQ
is seen high.  The CLK check comes first, exactly as in the C source. -/
def wait_clk_edge (prevClk : Bool) : List Nat → Option ClkWait
  | [] => none
  | p :: rest =>
    if Nat.testBit p PIN_CLK ≠ prevClk then some (ClkWait.edge p rest)
    else if Nat.testBit p PIN_REQ then some (ClkWait.aborted rest)
    else wait_clk_edge prevClk rest

/-- par_spi.c lines 231-235: busy-wait until REQ is observed high again. -/
def wait_req_high : List Nat → Option (List Nat)
  | [] => none
  | p :: rest =>
    if Nat.testBit p PIN_REQ then some rest else wait_req_high rest

/-- First-byte command decoding of handle_request (par_spi.c lines 116-124
and 196-197): top bits not 11 selects a data command (short when bit 7 is
clear, otherwise extended with the high count bits), top bits 11 selects a
control command. -/
inductive FirstDecode where
  | short (read : Bool) (count : Nat)
  | extended (countHigh : Nat)
  | control (sub : Nat)
deriving DecidableEq

/-- Decode of the first sampled header byte, from par_spi.c lines 116-124
(data commands) and line 197 (control sub-command extraction). -/
def decode_first (pins : Nat) : FirstDecode :=
  if pins &&& 0xC0 ≠ 0xC0 then
    if pins &&& 0x80 = 0 then
      FirstDecode.short (pins &&& 0x40 ≠ 0) (pins &&& 0x3F)
    else
      FirstDecode.extended ((pins &&& 0x3F) <<< 7)
  else
    FirstDecode.control ((pins &&& 0x3E) >>> 1)

/-- Decode of the second header byte of an extended data command, from
par_spi.c lines 135-136: direction from bit 7, low seven count bits ored
into the high part. -/
def decode_second (countHigh pins2 : Nat) : Bool × Nat :=
  (pins2 &&& 0x80 ≠ 0, countHigh ||| (pins2 &&& 0x7F))

/-- The READ transfer loop of handle_request (par_spi.c lines 145-169).
`idx` numbers the SPI exchanges, so `spi idx` is the byte the device
returns for the exchange whose MOSI byte was most recently written.  One
iteration: read the fetched byte from the data register, wait for a CLOCK
edge (abort if REQ is seen high), drive the byte onto the bus, and unless
the count is exhausted start the next SPI exchange and continue. -/
def read_loop (spi : Nat → Nat) (prevSS : Nat) :
    Nat → Nat → Bool → List Nat → Option RunResult
  | 0, idx, prevClk, trace =>
    match wait_clk_edge prevClk trace with
    | none => none
    | some (ClkWait.aborted rest) =>
      some ⟨[Event.spiRd (spi idx)], Outcome.aborted, rest⟩
    | some (ClkWait.edge _ rest) =>
      some ⟨[Event.spiRd (spi idx), Event.busDriveAll (prevSS ||| spi idx)],
            Outcome.completed, rest⟩
  | c + 1, idx, prevClk, trace =>
    match wait_clk_edge prevClk trace with
    | none => none
    | some (ClkWait.aborted rest) =>
      some ⟨[Event.spiRd (spi idx)], Outcome.aborted, rest⟩
    | some (ClkWait.edge pins rest) =>
      match read_loop spi prevSS c (idx + 1) (Nat.testBit pins PIN_CLK) rest with
      | none => none
      | some r =>
        some ⟨Event.spiRd (spi idx) :: Event.busDriveAll (prevSS ||| spi idx) ::
                Event.spiWr 0xFF :: r.events, r.outcome, r.rest⟩

/-- The WRITE transfer loop of handle_request (par_spi.c lines 171-195).
One iteration: wait for a CLOCK edge (abort if REQ is seen high), forward
the sampled low bus byte to the SPI data register, read back and discard
the response, and continue unless the count is exhausted. -/
def write_loop (spi : Nat → Nat) :
    Nat → Nat → Bool → List Nat → Option RunResult
  | 0, idx, prevClk, trace =>
    match wait_clk_edge prevClk trace with
    | none => none
    | some (ClkWait.aborted rest) => some ⟨[], Outcome.aborted, rest⟩
    | some (ClkWait.edge pins rest) =>
      some ⟨[Event.spiWr (pins &&& 0xFF), Event.spiRd (spi idx)],
            Outcome.completed, rest⟩
  | c + 1, idx, prevClk, trace =>
    match wait_clk_edge prevClk trace with
    | none => none
    | some (ClkWait.aborted rest) => some ⟨[], Outcome.aborted, rest⟩
    | some (ClkWait.edge pins rest) =>
      match write_loop spi c (idx + 1) (Nat.testBit pins PIN_CLK) rest with
      | none => none
      | some r =>
        some ⟨Event.spiWr (pins &&& 0xFF) :: Event.spiRd (spi idx) :: r.events,
              r.outcome, r.rest⟩

/-- Entry to the READ branch (par_spi.c lines 140-143): start the first
dummy SPI exchange, capture the current SS output level, and run the read
loop.  `pins` is the most recent snapshot (the header byte for the short
form, the second header byte for the extended form). -/
def runRead (spi : Nat → Nat) (pins c : Nat) (trace : List Nat) : Option RunResult :=
  match read_loop spi (pins &&& (1 <<< PIN_SS)) c 0 (Nat.testBit pins PIN_CLK) trace with
  | none => none
  | some r => some ⟨Event.spiWr 0xFF :: r.events, r.outcome, r.rest⟩

/-- Entry to the WRITE branch (par_spi.c line 170): run the write loop from
the CLK level of the most recent snapshot. -/
def runWrite (spi : Nat → Nat) (pins c : Nat) (trace : List Nat) : Option RunResult :=
  write_loop spi c 0 (Nat.testBit pins PIN_CLK) trace

/-- The control-command switch of handle_request (par_spi.c lines 197-227).
Sub-command 0 sets SS from the inverted parameter bit; sub-command 1
releases the IRQ pin, waits for a CLOCK edge (abortable), freshly samples
the card-detect input and drives its inverse on data bit 0; sub-command 2
selects the SPI baud-rate preset; any other sub-command does nothing. -/
def control_cmd (sub pins : Nat) (prevClk : Bool) (trace : List Nat) : Option RunResult :=
  if sub = 0 then
    some ⟨[Event.ssPut (pins &&& 1 = 0)], Outcome.completed, trace⟩
  else if sub = 1 then
    match wait_clk_edge prevClk trace with
    | none => none
    | some (ClkWait.aborted rest) => some ⟨[Event.irqDirIn], Outcome.aborted, rest⟩
    | some (ClkWait.edge _ rest) =>
      match rest with
      | [] => none
      | s :: rest' =>
        some ⟨[Event.irqDirIn, Event.driveD0 (!(Nat.testBit s PIN_CDET))],
              Outcome.completed, rest'⟩
  else if sub = 2 then
    some ⟨[Event.setBaud (pins &&& 1 = 1)], Outcome.completed, trace⟩
  else
    some ⟨[], Outcome.completed, trace⟩

/-- The body of handle_request between the REQ-low wait and the final
REQ-high wait: decode and dispatch (par_spi.c lines 116-228). -/
def request_body (spi : Nat → Nat) (pins : Nat) (trace : List Nat) : Option RunResult :=
  match decode_first pins with
  | FirstDecode.short read c =>
    if read then runRead spi pins c trace else runWrite spi pins c trace
  | FirstDecode.extended hi =>
    match wait_clk_edge (Nat.testBit pins PIN_CLK) trace with
    | none => none
    | some (ClkWait.aborted rest) => some ⟨[], Outcome.aborted, rest⟩
    | some (ClkWait.edge pins2 rest) =>
      let rc := decode_second hi pins2
      if rc.1 then runRead spi pins2 rc.2 rest else runWrite spi pins2 rc.2 rest
  | FirstDecode.control sub => control_cmd sub pins (Nat.testBit pins PIN_CLK) trace

/-- par_spi.c handle_request (lines 100-239): wait for REQ low, decode and
execute the command; an abort (REQ seen high during a clock wait) returns
immediately, otherwise wait for REQ to go high again and re-enable the
card-detect path. -/
def handle_request (spi : Nat → Nat) (trace : List Nat) : Option RunResult :=
  match wait_req_low trace with
  | none => none
  | some (pins, rest) =>
    match request_body spi pins rest with
    | none => none
    | some r =>
      match r.outcome with
      | Outcome.aborted => some r
      | Outcome.completed =>
        match wait_req_high r.rest with
        | none => none
        | some rest' =>
          some ⟨r.events ++ [Event.cdetEnable], Outcome.completed, rest'⟩

/-- One iteration of the request-servicing part of par_spi_main
(par_spi.c lines 351-368): LED on, run handle_request, tri-state and clear
the data bus, drain the SPI peripheral, LED off. -/
def service_request (spi : Nat → Nat) (trace : List Nat) :
    Option (List Event × Outcome × List Nat) :=
  match handle_request spi trace with
  | none => none
  | some r =>
    some (Event.ledOn :: r.events ++
            [Event.busDirIn, Event.busClr, Event.spiDrain, Event.ledOff],
          r.outcome, r.rest)

/-- Recognizer for bus-drive events (a byte presented to the host on the
8 data lines). -/
def isBusDrive : Event → Bool
  | Event.busDriveAll _ => true
  | _ => false

/-- Recognizer for writes to the SPI data register. -/
def isSpiWr : Event → Bool
  | Event.spiWr _ => true
  | _ => false

/-- True for every event that is not a mutex operation; an event list of
mutex-free events never acquires or releases the cross-core SPI guard. -/
def isMutexFree : Event → Bool
  | Event.mutexEnter => false
  | Event.mutexExit => false
  | _ => true

/-- Number of bytes driven onto the parallel bus in an event list. -/
def countBusDrive (evs : List Event) : Nat := evs.countP isBusDrive

/-- Number of bytes written to the SPI data register in an event list. -/
def countSpiWr (evs : List Event) : Nat := evs.countP isSpiWr

/-- Checks that every SPI data-register access in the event list happens
while the cross-core mutex is held (held = current ownership on entry). -/
def spiGuarded : Bool → List Event → Bool
  | _, [] => true
  | _, Event.mutexEnter :: rest => spiGuarded true rest
  | _, Event.mutexExit :: rest => spiGuarded false rest
  | held, Event.spiWr _ :: rest => held && spiGuarded held rest
  | held, Event.spiRd _ :: rest => held && spiGuarded held rest
  | held, _ :: rest => spiGuarded held rest

/-- A constant all-zero SPI response stream, used for concrete runs. -/
def spiZero : Nat → Nat := fun _ => 0

/-! ## Mode arbiter (main.c) -/

/-- main.c line 16: magic persisted in watchdog scratch to boot into WiFi
(network-service) mode. -/
def BOOT_MODE_WIFI_MAGIC : Nat := 0x57494649

/-- main.c line 17: magic persisted in watchdog scratch to boot into Amiga
(host-bridge) mode. -/
def BOOT_MODE_AMIGA_MAGIC : Nat := 0x414D4947

/-- Externally visible actions taken by the core-0 mode-switch code in
main.c. -/
inductive MEvent where
  | ledFlash
  | setCardOverride
  | irqPulse
  | sleep (ms : Nat)
  | persistScratch (v : Nat)
  | watchdogReboot
deriving DecidableEq

/-- main.c signal_card_change (lines 162-169): one low pulse on the host
interrupt line. -/
def signal_card_change : List MEvent := [MEvent.irqPulse]

/-- main.c switch_to_amiga_mode (lines 175-202): LED indication, one
card-change pulse, persist the Amiga magic, reboot. -/
def switch_to_amiga_mode : List MEvent :=
  [MEvent.ledFlash] ++ signal_card_change ++
    [MEvent.sleep 100, MEvent.persistScratch BOOT_MODE_AMIGA_MAGIC,
     MEvent.sleep 500, MEvent.sleep 100, MEvent.watchdogReboot]

/-- main.c switch_to_wifi_mode (lines 204-242): LED indication, set the
card-detect override, one card-change pulse, then three additional pulses,
persist the WiFi magic, reboot. -/
def switch_to_wifi_mode : List MEvent :=
  [MEvent.ledFlash, MEvent.setCardOverride] ++ signal_card_change ++ [MEvent.sleep 100] ++
    signal_card_change ++ [MEvent.sleep 50] ++
    signal_card_change ++ [MEvent.sleep 50] ++
    signal_card_change ++ [MEvent.sleep 50] ++
    [MEvent.persistScratch BOOT_MODE_WIFI_MAGIC,
     MEvent.sleep 500, MEvent.sleep 100, MEvent.watchdogReboot]

/-- Recognizer for host-interrupt pulses. -/
def isIrqPulse : MEvent → Bool
  | MEvent.irqPulse => true
  | _ => false

/-- Number of host-interrupt (card-change) pulses in a mode-switch event
list. -/
def countIrqPulses (evs : List MEvent) : Nat := evs.countP isIrqPulse

/-- main.h lines 44-48: the system mode enumeration. -/
inductive SystemMode where
  | MODE_WIFI
  | MODE_AMIGA
  | MODE_SWITCHING
deriving DecidableEq

/-- The boot-time mode decision of main.c main (lines 301-320): read the
watchdog scratch register, clear it, then select the mode and the
card-detect override from the value read.  Returns (selected mode,
card_detect_override, new scratch value). -/
def boot_mode_select (scratch0 : Nat) : SystemMode × Bool × Nat :=
  let boot_mode := scratch0
  if boot_mode = BOOT_MODE_WIFI_MAGIC then (SystemMode.MODE_WIFI, false, 0)
  else if boot_mode = BOOT_MODE_AMIGA_MAGIC then (SystemMode.MODE_AMIGA, false, 0)
  else (SystemMode.MODE_AMIGA, false, 0)

/-! ## GPIO interrupt handler (par_spi.c lines 45-98) -/

/-- The state the exclusive GPIO interrupt handler keeps across
invocations: the card_detect_enabled flag and last_card_detect_time. -/
structure IrqState where
  cdEnabled : Bool
  lastCdTime : Nat
deriving DecidableEq

/-- One invocation's input: which REQ edges are pending, whether a
card-detect edge is pending, and the current millisecond clock. -/
structure IrqInput where
  reqFall : Bool
  reqRise : Bool
  cdetEvent : Bool
  now : Nat
deriving DecidableEq

/-- par_spi.c gpio_irq_exclusive_handler (lines 45-98): a REQ falling edge
disables the card-detect path, a REQ rising edge re-enables it (in that
order), then a pending card-detect edge is dropped when the path is
disabled or inside the debounce window, and otherwise emits one pulse
toward the host and records the time.  Returns the new state and whether a
pulse was emitted. -/
def gpio_irq_exclusive_handler (s : IrqState) (i : IrqInput) : IrqState × Bool :=
  let s1 := if i.reqFall then { s with cdEnabled := false } else s
  let s2 := if i.reqRise then { s1 with cdEnabled := true } else s1
  if i.cdetEvent then
    if !s2.cdEnabled then (s2, false)
    else if i.now - s2.lastCdTime < 50 then (s2, false)
    else ({ s2 with lastCdTime := i.now }, true)
  else (s2, false)

/-- Ghost tracking of whether REQ is asserted (transfer in progress) after
an invocation, given whether it was asserted before: a falling edge asserts
it, a rising edge deasserts it, and when both are pending in one invocation
the rising edge is the later one (matching the handler's update order). -/
def reqStep (a : Bool) (i : IrqInput) : Bool :=
  if i.reqRise then false else if i.reqFall then true else a

/-! ## Host interrupt pin discipline (claim C10) -/

/-- Operations the firmware performs on the host interrupt pin. -/
inductive PinOp where
  | putLow
  | putHigh
  | dirOut
  | dirIn
deriving DecidableEq

/-- Output-latch and direction state of one GPIO pin. -/
structure PinState where
  latch : Bool
  driven : Bool
deriving DecidableEq

/-- Effect of one pin operation. -/
def stepPin (s : PinState) : PinOp → PinState
  | PinOp.putLow => { s with latch := false }
  | PinOp.putHigh => { s with latch := true }
  | PinOp.dirOut => { s with driven := true }
  | PinOp.dirIn => { s with driven := false }

/-- The pin states reached after each operation of a list, in order. -/
def pinStates (s : PinState) : List PinOp → List PinState
  | [] => []
  | op :: ops => stepPin s op :: pinStates (stepPin s op) ops

/-- The pin state trace including the starting state. -/
def pinTrace (s : PinState) (ops : List PinOp) : List PinState :=
  s :: pinStates s ops

/-- Final state after a list of pin operations. -/
def runPin (s : PinState) (ops : List PinOp) : PinState := ops.foldl stepPin s

/-- A pin is actively driven high when it is configured as an output and
its latch is high — the state the open-collector discipline forbids. -/
def drivenHigh (s : PinState) : Bool := s.driven && s.latch

/-- Negation of drivenHigh, for list-wide checks. -/
def notDrivenHigh (s : PinState) : Bool := !(drivenHigh s)

namespace IrqPin

/-- IRQ-pin operations of main.c signal_card_change (lines 162-169):
latch low, drive, release to input. -/
def signal_card_change_ops : List PinOp := [PinOp.putLow, PinOp.dirOut, PinOp.dirIn]

/-- IRQ-pin operations of the card-detect pulse in
gpio_irq_exclusive_handler (par_spi.c lines 85-93). -/
def cdet_irq_pulse_ops : List PinOp := [PinOp.putLow, PinOp.dirOut, PinOp.dirIn]

/-- IRQ-pin operations of the boot-time card-insertion signal in
par_spi_main (par_spi.c lines 313-319). -/
def boot_insertion_pulse_ops : List PinOp := [PinOp.putLow, PinOp.dirOut, PinOp.dirIn]

/-- IRQ-pin operation of the CARD_PRESENT control command (par_spi.c line
203): release the pin to input. -/
def card_present_release_ops : List PinOp := [PinOp.dirIn]

/-- IRQ-pin effect of gpio_put_all in the read loop (par_spi.c line 160):
the written word is prev_ss (bit 17) ored with an 8-bit SPI byte, so the
IRQ latch (bit 8) is written low. -/
def bus_drive_latch_ops : List PinOp := [PinOp.putLow]

/-- All blocks of IRQ-pin operations the firmware ever performs after
initialization (which leaves the pin as an input with a low latch). -/
def blocks : List (List PinOp) :=
  [signal_card_change_ops, cdet_irq_pulse_ops, boot_insertion_pulse_ops,
   card_present_release_ops, bus_drive_latch_ops]

/-- Pin state established by par_spi_main initialization (par_spi.c lines
270-272): input direction, latch low. -/
def init_state : PinState := ⟨false, false⟩

end IrqPin

end AmigaSpi

namespace AmigaSpi

/-! ## Byte-count lemmas for the transfer loops -/

theorem read_loop_counts (spi : Nat → Nat) (prevSS : Nat) :
    ∀ (c idx : Nat) (prevClk : Bool) (trace : List Nat) (r : RunResult),
      read_loop spi prevSS c idx prevClk trace = some r →
      r.outcome = Outcome.completed →
      countBusDrive r.events = c + 1 ∧ countSpiWr r.events = c := by
  intro c
  induction c with
  | zero =>
    intro idx prevClk trace r h hc
    rw [read_loop] at h
    cases hw : wait_clk_edge prevClk trace with
    | none => rw [hw] at h; exact absurd h (by simp)
    | some w =>
      rw [hw] at h
      cases w with
      | aborted rest =>
        simp only [Option.some.injEq] at h
        rw [← h] at hc
        exact absurd hc (by simp)
      | edge pins rest =>
        simp only [Option.some.injEq] at h
        rw [← h]
        simp [countBusDrive, countSpiWr, List.countP_cons, isBusDrive, isSpiWr]
  | succ c' ih =>
    intro idx prevClk trace r h hc
    rw [read_loop] at h
    cases hw : wait_clk_edge prevClk trace with
    | none => rw [hw] at h; exact absurd h (by simp)
    | some w =>
      rw [hw] at h
      cases w with
      | aborted rest =>
        simp only [Option.some.injEq] at h
        rw [← h] at hc
        exact absurd hc (by simp)
      | edge pins rest =>
        simp only [] at h
        cases hr : read_loop spi prevSS c' (idx + 1) (Nat.testBit pins PIN_CLK) rest with
        | none => rw [hr] at h; exact absurd h (by simp)
        | some r' =>
          rw [hr] at h
          simp only [Option.some.injEq] at h
          rw [← h] at hc ⊢
          have := ih (idx + 1) (Nat.testBit pins PIN_CLK) rest r' hr hc
          simp [countBusDrive, countSpiWr, List.countP_cons, isBusDrive, isSpiWr] at this ⊢
          omega

theorem write_loop_counts (spi : Nat → Nat) :
    ∀ (c idx : Nat) (prevClk : Bool) (trace : List Nat) (r : RunResult),
      write_loop spi c idx prevClk trace = some r →
      r.outcome = Outcome.completed →
      countSpiWr r.events = c + 1 ∧ countBusDrive r.events = 0 := by
  intro c
  induction c with
  | zero =>
    intro idx prevClk trace r h hc
    rw [write_loop] at h
    cases hw : wait_clk_edge prevClk trace with
    | none => rw [hw] at h; exact absurd h (by simp)
    | some w =>
      rw [hw] at h
      cases w with
      | aborted rest =>
        simp only [Option.some.injEq] at h
        rw [← h] at hc
        exact absurd hc (by simp)
      | edge pins rest =>
        simp only [Option.some.injEq] at h
        rw [← h]
        simp [countBusDrive, countSpiWr, List.countP_cons, isBusDrive, isSpiWr]
  | succ c' ih =>
    intro idx prevClk trace r h hc
    rw [write_loop] at h
    cases hw : wait_clk_edge prevClk trace with
    | none => rw [hw] at h; exact absurd h (by simp)
    | some w =>
      rw [hw] at h
      cases w with
      | aborted rest =>
        simp only [Option.some.injEq] at h
        rw [← h] at hc
        exact absurd hc (by simp)
      | edge pins rest =>
        simp only [] at h
        cases hr : write_loop spi c' (idx + 1) (Nat.testBit pins PIN_CLK) rest with
        | none => rw [hr] at h; exact absurd h (by simp)
        | some r' =>
          rw [hr] at h
          simp only [Option.some.injEq] at h
          rw [← h] at hc ⊢
          have := ih (idx + 1) (Nat.testBit pins PIN_CLK) rest r' hr hc
          simp [countBusDrive, countSpiWr, List.countP_cons, isBusDrive, isSpiWr] at this ⊢
          exact this

/-- Claim C1 (amended): a Read or Write transfer invoked with count field c
that runs to completion exchanges exactly c + 1 bytes between the SPI
device and the parallel data lines — c + 1 bus drives (and c + 1 SPI
fetches) for a read, c + 1 SPI data-register writes (and no bus drive) for
a write; in particular a count field of 0 moves one byte, not none. -/
theorem c1_transfer_moves_count_plus_one (spi : Nat → Nat) (pins c : Nat) (trace : List Nat) :
    (∀ r, runRead spi pins c trace = some r → r.outcome = Outcome.completed →
       countBusDrive r.events = c + 1 ∧ countSpiWr r.events = c + 1) ∧
    (∀ r, runWrite spi pins c trace = some r → r.outcome = Outcome.completed →
       countSpiWr r.events = c + 1 ∧ countBusDrive r.events = 0) := by
  constructor
  · intro r h hc
    rw [runRead] at h
    cases hr : read_loop spi (pins &&& (1 <<< PIN_SS)) c 0 (Nat.testBit pins PIN_CLK) trace with
    | none => rw [hr] at h; exact absurd h (by simp)
    | some r' =>
      rw [hr] at h
      simp only [Option.some.injEq] at h
      rw [← h] at hc ⊢
      have := read_loop_counts spi (pins &&& (1 <<< PIN_SS)) c 0 (Nat.testBit pins PIN_CLK) trace r' hr hc
      simp [countBusDrive, countSpiWr, List.countP_cons, isBusDrive, isSpiWr] at this ⊢
      omega
  · intro r h hc
    exact write_loop_counts spi c 0 (Nat.testBit pins PIN_CLK) trace r h hc

/-- Witness for C1 (amended), at count field 0: one byte is driven. -/
theorem c1_witness :
    countBusDrive [Event.spiWr 0xFF, Event.spiRd 0, Event.busDriveAll 0] = 0 + 1 ∧
    countSpiWr [Event.spiWr 0xFF, Event.spiRd 0, Event.busDriveAll 0] = 0 + 1 :=
  (c1_transfer_moves_count_plus_one spiZero 0x40 0 [0x400]).1
    ⟨[Event.spiWr 0xFF, Event.spiRd 0, Event.busDriveAll 0], Outcome.completed, []⟩
    (by decide) (by decide)

/-- Counterexample to C1 as stated: the short read command 0x40 has count
field 0, yet a completed request drives one byte onto the bus (the claim
says a count of 0 moves none). -/
theorem c1_counterexample :
    decode_first 0x40 = FirstDecode.short true 0 ∧
    handle_request spiZero [0x40, 0x400, 0x800] =
      some ⟨[Event.spiWr 0xFF, Event.spiRd 0, Event.busDriveAll 0, Event.cdetEnable],
            Outcome.completed, []⟩ ∧
    countBusDrive [Event.spiWr 0xFF, Event.spiRd 0, Event.busDriveAll 0, Event.cdetEnable] = 1 := by
  decide

/-! ## Decoder claims (C3, C4) -/

/-- Counterexample to C3 as stated: 0x80 satisfies b AND 0xC0 dif 0xC0 but
decodes as the first byte of an extended command, not as a short command
with count b AND 0x3F. -/
theorem c3_counterexample :
    (0x80 &&& 0xC0 ≠ 0xC0) ∧
    decode_first 0x80 = FirstDecode.extended 0 ∧
    decode_first 0x80 ≠ FirstDecode.short false (0x80 &&& 0x3F) ∧
    decode_first 0x80 ≠ FirstDecode.short true (0x80 &&& 0x3F) := by decide

/-- Claim C3 (amended): for every header byte with bit 7 clear (top bits 0x),
the decoder yields a short data command with direction bit 6 and count the
low six bits. -/
theorem c3_short_decode : ∀ b < 256, b &&& 0x80 = 0 →
    decode_first b = FirstDecode.short (((b >>> 6) &&& 1) = 1) (b &&& 0x3F) := by decide

/-- Witness for C3 (amended) at b = 0x41. -/
theorem c3_witness :
    decode_first 0x41 = FirstDecode.short (((0x41 >>> 6) &&& 1) = 1) (0x41 &&& 0x3F) :=
  c3_short_decode 0x41 (by decide) (by decide)

theorem c4_first_decode : ∀ b1 < 256, b1 &&& 0xC0 = 0x80 →
    decode_first b1 = FirstDecode.extended ((b1 &&& 0x3F) <<< 7) := by decide

theorem c4_dir_bit : ∀ b2 < 256,
    (decide (b2 &&& 0x80 ≠ 0)) = (decide (((b2 >>> 7) &&& 1) = 1)) := by decide

/-- Claim C4: a header pair with b1 AND 0xC0 equal 0x80 decodes as an
extended data command with count ((b1 AND 0x3F) shl 7) OR (b2 AND 0x7F)
and direction bit 7 of the second byte. -/
theorem c4_extended_decode : ∀ b1 < 256, ∀ b2 < 256, b1 &&& 0xC0 = 0x80 →
    decode_first b1 = FirstDecode.extended ((b1 &&& 0x3F) <<< 7) ∧
    decode_second ((b1 &&& 0x3F) <<< 7) b2 =
      ((((b2 >>> 7) &&& 1) = 1 : Bool), ((b1 &&& 0x3F) <<< 7) ||| (b2 &&& 0x7F)) := by
  intro b1 hb1 b2 hb2 h
  refine ⟨c4_first_decode b1 hb1 h, ?_⟩
  rw [decode_second, c4_dir_bit b2 hb2]

/-- Witness for C4 at (b1, b2) = (0x81, 0xFF). -/
theorem c4_witness :
    decode_first 0x81 = FirstDecode.extended ((0x81 &&& 0x3F) <<< 7) ∧
    decode_second ((0x81 &&& 0x3F) <<< 7) 0xFF =
      ((((0xFF >>> 7) &&& 1) = 1 : Bool), ((0x81 &&& 0x3F) <<< 7) ||| (0xFF &&& 0x7F)) :=
  c4_extended_decode 0x81 (by decide) 0xFF (by decide) (by decide)

/-! ## Mutex claim (C5): counterexample -/

/-- Counterexample to C5 as stated: a completed bridge-mode request performs
SPI data-register accesses, and none of them happens with the cross-core
mutex held (the handler never takes it). -/
theorem c5_counterexample :
    handle_request spiZero [0x01, 0x400, 0, 0x800] =
      some ⟨[Event.spiWr 0, Event.spiRd 0, Event.spiWr 0, Event.spiRd 0, Event.cdetEnable],
            Outcome.completed, []⟩ ∧
    countSpiWr [Event.spiWr 0, Event.spiRd 0, Event.spiWr 0, Event.spiRd 0, Event.cdetEnable] = 2 ∧
    spiGuarded false
      [Event.spiWr 0, Event.spiRd 0, Event.spiWr 0, Event.spiRd 0, Event.cdetEnable] = false := by
  decide

/-! ## Mode switch (C6) and boot decision (C7) -/

/-- Counterexample to C6 as stated: switching to WiFi (network-service)
mode emits four card-removal pulses toward the host, not exactly one. -/
theorem c6_counterexample :
    countIrqPulses switch_to_wifi_mode = 4 ∧ countIrqPulses switch_to_wifi_mode ≠ 1 := by
  decide

/-- Claim C6 (amended): switching to Amiga mode emits exactly one
card-removal pulse and switching to WiFi mode emits four; both persist the
matching boot magic (which the boot decision maps back to the requested
mode) and end with a deliberate watchdog reset. -/
theorem c6_mode_switch_events :
    countIrqPulses switch_to_amiga_mode = 1 ∧
    countIrqPulses switch_to_wifi_mode = 4 ∧
    switch_to_amiga_mode.getLast? = some MEvent.watchdogReboot ∧
    switch_to_wifi_mode.getLast? = some MEvent.watchdogReboot ∧
    MEvent.persistScratch BOOT_MODE_AMIGA_MAGIC ∈ switch_to_amiga_mode ∧
    MEvent.persistScratch BOOT_MODE_WIFI_MAGIC ∈ switch_to_wifi_mode ∧
    (boot_mode_select BOOT_MODE_AMIGA_MAGIC).1 = SystemMode.MODE_AMIGA ∧
    (boot_mode_select BOOT_MODE_WIFI_MAGIC).1 = SystemMode.MODE_WIFI := by decide

/-- Claim C7: the boot-time mode decision is a pure function of the
persisted scratch value — the WiFi magic selects WiFi mode, anything else
selects Amiga (host-bridge) mode — the scratch value is cleared to zero by
the read, the card-detect override is cleared, and a subsequent boot from
the cleared value lands in Amiga mode. -/
theorem c7_boot_mode_pure (s : Nat) :
    ((boot_mode_select s).1 = SystemMode.MODE_WIFI ↔ s = BOOT_MODE_WIFI_MAGIC) ∧
    (s ≠ BOOT_MODE_WIFI_MAGIC → (boot_mode_select s).1 = SystemMode.MODE_AMIGA) ∧
    (boot_mode_select s).2.1 = false ∧
    (boot_mode_select s).2.2 = 0 ∧
    (boot_mode_select ((boot_mode_select s).2.2)).1 = SystemMode.MODE_AMIGA := by
  by_cases h1 : s = BOOT_MODE_WIFI_MAGIC
  · subst h1
    refine ⟨by simp [boot_mode_select], fun hn => absurd rfl hn, ?_, ?_, ?_⟩ <;> decide
  · by_cases h2 : s = BOOT_MODE_AMIGA_MAGIC
    · subst h2
      refine ⟨?_, fun _ => by decide, ?_, ?_, ?_⟩
      · constructor
        · intro hm; exact absurd hm (by decide)
        · intro hs; exact absurd hs (by decide)
      · decide
      · decide
      · decide
    · have hsel : boot_mode_select s = (SystemMode.MODE_AMIGA, false, 0) := by
        rw [boot_mode_select]
        simp [h1, h2]
      refine ⟨?_, fun _ => by rw [hsel], by rw [hsel], by rw [hsel], by rw [hsel]; decide⟩
      constructor
      · intro hm; rw [hsel] at hm; exact absurd hm (by decide)
      · intro hs; exact absurd hs h1

/-- Witness for C7 at scratch value 12345 (an unplanned-reset value). -/
theorem c7_witness :
    ((boot_mode_select 12345).1 = SystemMode.MODE_WIFI ↔ 12345 = BOOT_MODE_WIFI_MAGIC) ∧
    (12345 ≠ BOOT_MODE_WIFI_MAGIC → (boot_mode_select 12345).1 = SystemMode.MODE_AMIGA) ∧
    (boot_mode_select 12345).2.1 = false ∧
    (boot_mode_select 12345).2.2 = 0 ∧
    (boot_mode_select ((boot_mode_select 12345).2.2)).1 = SystemMode.MODE_AMIGA :=
  c7_boot_mode_pure 12345

/-! ## Card-detect override (C8) -/

/-- Claim C8 (code-bug evidence): switch_to_wifi_mode sets the card-detect
override, yet a CARD_PRESENT query serviced by handle_request drives data
bit 0 from the physical card-detect level — here the card is physically
present (CDET low) and the host is told present, never absent; the
override is not consulted anywhere in the query path. -/
theorem c8_override_ignored_by_query :
    MEvent.setCardOverride ∈ switch_to_wifi_mode ∧
    handle_request spiZero [0xC2, 0x400, 0, 0x800] =
      some ⟨[Event.irqDirIn, Event.driveD0 true, Event.cdetEnable], Outcome.completed, []⟩ ∧
    Event.driveD0 false ∉ [Event.irqDirIn, Event.driveD0 true, Event.cdetEnable] := by decide

/-! ## Presence-interrupt suppression (C9) -/

/-- Claim C9: provided card_detect_enabled tracks the negation of
REQ-asserted on entry, then after the handler's own REQ-edge updates the
flag again tracks the negation of REQ-asserted (so a falling edge
suppresses and a rising edge lifts suppression immediately), and whenever
REQ is asserted after those updates a pending card-detect edge produces no
pulse and leaves the debounce timestamp unchanged — discarded, not
deferred. -/
theorem c9_presence_suppressed_during_transfer (s : IrqState) (a : Bool) (i : IrqInput)
    (hlink : s.cdEnabled = !a) :
    ((gpio_irq_exclusive_handler s i).1.cdEnabled = !(reqStep a i)) ∧
    (reqStep a i = true →
       (gpio_irq_exclusive_handler s i).2 = false ∧
       (gpio_irq_exclusive_handler s i).1.lastCdTime = s.lastCdTime) := by
  rcases s with ⟨e, t⟩
  rcases i with ⟨f, ri, cd, now⟩
  simp only at hlink
  subst hlink
  simp only [gpio_irq_exclusive_handler, reqStep]
  cases f <;> cases ri <;> cases cd <;> cases a <;>
    simp <;> split <;> simp

/-- Witness for C9: transfer in progress, pending card-detect edge, no
pulse. -/
theorem c9_witness :
    ((gpio_irq_exclusive_handler ⟨false, 0⟩ ⟨false, false, true, 100⟩).1.cdEnabled
        = !(reqStep true ⟨false, false, true, 100⟩)) ∧
    (reqStep true ⟨false, false, true, 100⟩ = true →
       (gpio_irq_exclusive_handler ⟨false, 0⟩ ⟨false, false, true, 100⟩).2 = false ∧
       (gpio_irq_exclusive_handler ⟨false, 0⟩ ⟨false, false, true, 100⟩).1.lastCdTime =
         (⟨false, 0⟩ : IrqState).lastCdTime) :=
  c9_presence_suppressed_during_transfer ⟨false, 0⟩ true ⟨false, false, true, 100⟩ (by decide)

/-! ## Host interrupt pin discipline (C10) -/

theorem pinStates_append (l1 : List PinOp) :
    ∀ (s : PinState) (l2 : List PinOp),
      pinStates s (l1 ++ l2) = pinStates s l1 ++ pinStates (runPin s l1) l2 := by
  induction l1 with
  | nil => intro s l2; simp [pinStates, runPin]
  | cons op ops ih =>
    intro s l2
    show stepPin s op :: pinStates (stepPin s op) (ops ++ l2)
        = (stepPin s op :: pinStates (stepPin s op) ops) ++ pinStates (runPin s (op :: ops)) l2
    rw [List.cons_append, ih (stepPin s op) l2]
    rfl

theorem irq_pin_block_safe (b : List PinOp) (hb : b ∈ IrqPin.blocks) (s : PinState) :
    (pinStates s b).all notDrivenHigh = true := by
  simp only [IrqPin.blocks, List.mem_cons, List.mem_singleton] at hb
  rcases s with ⟨l, d⟩
  rcases hb with rfl | rfl | rfl | rfl | rfl | h
  · simp [IrqPin.signal_card_change_ops, pinStates, stepPin, notDrivenHigh, drivenHigh]
  · simp [IrqPin.cdet_irq_pulse_ops, pinStates, stepPin, notDrivenHigh, drivenHigh]
  · simp [IrqPin.boot_insertion_pulse_ops, pinStates, stepPin, notDrivenHigh, drivenHigh]
  · simp [IrqPin.card_present_release_ops, pinStates, stepPin, notDrivenHigh, drivenHigh]
  · simp [IrqPin.bus_drive_latch_ops, pinStates, stepPin, notDrivenHigh, drivenHigh]
  · exact absurd h (by simp)

theorem irq_pin_blocks_safe (bs : List (List PinOp)) (h : ∀ b ∈ bs, b ∈ IrqPin.blocks) :
    ∀ s : PinState, (pinStates s bs.flatten).all notDrivenHigh = true := by
  induction bs with
  | nil => intro s; simp [pinStates]
  | cons b rest ih =>
    intro s
    have hb : b ∈ IrqPin.blocks := h b (List.mem_cons_self b rest)
    have hrest : ∀ x ∈ rest, x ∈ IrqPin.blocks := fun x hx => h x (List.mem_cons_of_mem b hx)
    rw [List.flatten_cons, pinStates_append, List.all_append]
    rw [irq_pin_block_safe b hb s, ih hrest (runPin s b)]
    rfl

/-- Claim C10: starting from the initialization state (input direction, low
latch), any sequence of the IRQ-pin operation blocks the firmware performs
(card-change pulses, boot-time insertion pulse, card-present release, the
read loop's latch write) never puts the host interrupt pin in the
driven-high state: the line is only ever driven low or released. -/
theorem c10_irq_pin_never_driven_high (bs : List (List PinOp))
    (h : ∀ b ∈ bs, b ∈ IrqPin.blocks) :
    (pinTrace IrqPin.init_state bs.flatten).all notDrivenHigh = true := by
  rw [pinTrace, List.all_cons]
  have h1 : notDrivenHigh IrqPin.init_state = true := by decide
  rw [h1, irq_pin_blocks_safe bs h IrqPin.init_state]
  rfl

/-- Witness for C10 on a concrete block sequence. -/
theorem c10_witness :
    (pinTrace IrqPin.init_state
        (List.flatten [IrqPin.signal_card_change_ops, IrqPin.bus_drive_latch_ops,
                    IrqPin.card_present_release_ops, IrqPin.cdet_irq_pulse_ops])).all
      notDrivenHigh = true :=
  c10_irq_pin_never_driven_high
    [IrqPin.signal_card_change_ops, IrqPin.bus_drive_latch_ops,
     IrqPin.card_present_release_ops, IrqPin.cdet_irq_pulse_ops] (by decide)

/-! ## Unfolding lemmas used by the abort analysis -/

theorem read_loop_aborted_eq (spi : Nat → Nat) (prevSS c idx : Nat) (prevClk : Bool)
    (trace rest : List Nat)
    (hw : wait_clk_edge prevClk trace = some (ClkWait.aborted rest)) :
    read_loop spi prevSS c idx prevClk trace =
      some ⟨[Event.spiRd (spi idx)], Outcome.aborted, rest⟩ := by
  cases c <;> simp only [read_loop, hw]

theorem read_loop_succ_some (spi : Nat → Nat) (prevSS c idx : Nat) (prevClk : Bool)
    (trace rest : List Nat) (pins : Nat) (r : RunResult)
    (hw : wait_clk_edge prevClk trace = some (ClkWait.edge pins rest))
    (hr : read_loop spi prevSS c (idx + 1) (Nat.testBit pins PIN_CLK) rest = some r) :
    read_loop spi prevSS (c + 1) idx prevClk trace =
      some ⟨Event.spiRd (spi idx) :: Event.busDriveAll (prevSS ||| spi idx) ::
              Event.spiWr 0xFF :: r.events, r.outcome, r.rest⟩ := by
  simp only [read_loop, hw, hr]

theorem write_loop_aborted_eq (spi : Nat → Nat) (c idx : Nat) (prevClk : Bool)
    (trace rest : List Nat)
    (hw : wait_clk_edge prevClk trace = some (ClkWait.aborted rest)) :
    write_loop spi c idx prevClk trace = some ⟨[], Outcome.aborted, rest⟩ := by
  cases c <;> simp only [write_loop, hw]

theorem write_loop_succ_some (spi : Nat → Nat) (c idx : Nat) (prevClk : Bool)
    (trace rest : List Nat) (pins : Nat) (r : RunResult)
    (hw : wait_clk_edge prevClk trace = some (ClkWait.edge pins rest))
    (hr : write_loop spi c (idx + 1) (Nat.testBit pins PIN_CLK) rest = some r) :
    write_loop spi (c + 1) idx prevClk trace =
      some ⟨Event.spiWr (pins &&& 0xFF) :: Event.spiRd (spi idx) :: r.events,
            r.outcome, r.rest⟩ := by
  simp only [write_loop, hw, hr]

/-! ## Consumed-prefix lemmas for the busy waits -/

theorem wait_req_low_spec :
    ∀ (trace rest : List Nat) (pins : Nat), wait_req_low trace = some (pins, rest) →
    ∃ pre, trace = pre ++ pins :: rest ∧
      ∀ ext, wait_req_low (pre ++ pins :: ext) = some (pins, ext) := by
  intro trace
  induction trace with
  | nil => intro rest pins h; simp [wait_req_low] at h
  | cons q t ih =>
    intro rest pins h
    by_cases hq : Nat.testBit q PIN_REQ = true
    · rw [wait_req_low, if_pos hq] at h
      obtain ⟨pre, htr, hre⟩ := ih rest pins h
      refine ⟨q :: pre, by rw [htr]; rfl, ?_⟩
      intro ext
      rw [List.cons_append, wait_req_low, if_pos hq]
      exact hre ext
    · rw [wait_req_low, if_neg hq] at h
      simp only [Option.some.injEq, Prod.mk.injEq] at h
      obtain ⟨rfl, rfl⟩ := h
      refine ⟨[], rfl, ?_⟩
      intro ext
      rw [List.nil_append, wait_req_low, if_neg hq]

theorem wait_clk_edge_aborted_spec (prevClk : Bool) :
    ∀ (trace rest : List Nat), wait_clk_edge prevClk trace = some (ClkWait.aborted rest) →
    ∃ pre p, trace = pre ++ p :: rest ∧ Nat.testBit p PIN_REQ = true ∧
      ∀ ext, wait_clk_edge prevClk (pre ++ p :: ext) = some (ClkWait.aborted ext) := by
  intro trace
  induction trace with
  | nil => intro rest h; simp [wait_clk_edge] at h
  | cons q t ih =>
    intro rest h
    by_cases hclk : Nat.testBit q PIN_CLK ≠ prevClk
    · rw [wait_clk_edge, if_pos hclk] at h
      simp at h
    · by_cases hreq : Nat.testBit q PIN_REQ = true
      · rw [wait_clk_edge, if_neg hclk, if_pos hreq] at h
        simp only [Option.some.injEq, ClkWait.aborted.injEq] at h
        subst h
        refine ⟨[], q, rfl, hreq, ?_⟩
        intro ext
        rw [List.nil_append, wait_clk_edge, if_neg hclk, if_pos hreq]
      · rw [wait_clk_edge, if_neg hclk, if_neg hreq] at h
        obtain ⟨pre, p, htr, hp, hre⟩ := ih rest h
        refine ⟨q :: pre, p, by rw [htr]; rfl, hp, ?_⟩
        intro ext
        rw [List.cons_append, wait_clk_edge, if_neg hclk, if_neg hreq]
        exact hre ext

theorem wait_clk_edge_edge_spec (prevClk : Bool) :
    ∀ (trace rest : List Nat) (pins : Nat),
      wait_clk_edge prevClk trace = some (ClkWait.edge pins rest) →
    ∃ pre, trace = pre ++ pins :: rest ∧
      ∀ ext, wait_clk_edge prevClk (pre ++ pins :: ext) = some (ClkWait.edge pins ext) := by
  intro trace
  induction trace with
  | nil => intro rest pins h; simp [wait_clk_edge] at h
  | cons q t ih =>
    intro rest pins h
    by_cases hclk : Nat.testBit q PIN_CLK ≠ prevClk
    · rw [wait_clk_edge, if_pos hclk] at h
      simp only [Option.some.injEq, ClkWait.edge.injEq] at h
      obtain ⟨rfl, rfl⟩ := h
      refine ⟨[], rfl, ?_⟩
      intro ext
      rw [List.nil_append, wait_clk_edge, if_pos hclk]
    · by_cases hreq : Nat.testBit q PIN_REQ = true
      · rw [wait_clk_edge, if_neg hclk, if_pos hreq] at h
        simp at h
      · rw [wait_clk_edge, if_neg hclk, if_neg hreq] at h
        obtain ⟨pre, htr, hre⟩ := ih rest pins h
        refine ⟨q :: pre, by rw [htr]; rfl, ?_⟩
        intro ext
        rw [List.cons_append, wait_clk_edge, if_neg hclk, if_neg hreq]
        exact hre ext

/-! ## Abort immediacy for the transfer loops -/

theorem read_loop_aborted_spec (spi : Nat → Nat) (prevSS : Nat) :
    ∀ (c idx : Nat) (prevClk : Bool) (trace : List Nat) (evs : List Event) (rest : List Nat),
      read_loop spi prevSS c idx prevClk trace = some ⟨evs, Outcome.aborted, rest⟩ →
      ∃ pre p, trace = pre ++ p :: rest ∧ Nat.testBit p PIN_REQ = true ∧
        ∀ ext, read_loop spi prevSS c idx prevClk (pre ++ p :: ext) =
          some ⟨evs, Outcome.aborted, ext⟩ := by
  intro c
  induction c with
  | zero =>
    intro idx prevClk trace evs rest h
    rw [read_loop] at h
    cases hw : wait_clk_edge prevClk trace with
    | none => rw [hw] at h; exact absurd h (by simp)
    | some w =>
      rw [hw] at h
      cases w with
      | aborted rest0 =>
        simp only [Option.some.injEq, RunResult.mk.injEq] at h
        obtain ⟨rfl, -, rfl⟩ := h
        obtain ⟨pre, p, htr, hp, hre⟩ := wait_clk_edge_aborted_spec prevClk trace rest0 hw
        refine ⟨pre, p, htr, hp, ?_⟩
        intro ext
        exact read_loop_aborted_eq spi prevSS 0 idx prevClk (pre ++ p :: ext) ext (hre ext)
      | edge pins rest0 => simp at h
  | succ c' ih =>
    intro idx prevClk trace evs rest h
    rw [read_loop] at h
    cases hw : wait_clk_edge prevClk trace with
    | none => rw [hw] at h; exact absurd h (by simp)
    | some w =>
      rw [hw] at h
      cases w with
      | aborted rest0 =>
        simp only [Option.some.injEq, RunResult.mk.injEq] at h
        obtain ⟨rfl, -, rfl⟩ := h
        obtain ⟨pre, p, htr, hp, hre⟩ := wait_clk_edge_aborted_spec prevClk trace rest0 hw
        refine ⟨pre, p, htr, hp, ?_⟩
        intro ext
        exact read_loop_aborted_eq spi prevSS (c' + 1) idx prevClk (pre ++ p :: ext) ext (hre ext)
      | edge pins rest0 =>
        simp only [] at h
        cases hr : read_loop spi prevSS c' (idx + 1) (Nat.testBit pins PIN_CLK) rest0 with
        | none => rw [hr] at h; exact absurd h (by simp)
        | some r' =>
          rw [hr] at h
          simp only [Option.some.injEq, RunResult.mk.injEq] at h
          obtain ⟨hevs, hout, hrest⟩ := h
          rcases r' with ⟨evs', out', rest'⟩
          simp only at hevs hout hrest
          subst hevs; subst hout; subst hrest
          obtain ⟨pre2, p, htr2, hp, hre2⟩ :=
            ih (idx + 1) (Nat.testBit pins PIN_CLK) rest0 evs' rest' hr
          obtain ⟨pre1, htr1, hre1⟩ := wait_clk_edge_edge_spec prevClk trace rest0 pins hw
          refine ⟨pre1 ++ pins :: pre2, p, ?_, hp, ?_⟩
          · rw [htr1, htr2]
            simp
          · intro ext
            have hlist : (pre1 ++ pins :: pre2) ++ p :: ext =
                pre1 ++ pins :: (pre2 ++ p :: ext) := by simp
            rw [hlist]
            exact read_loop_succ_some spi prevSS c' idx prevClk
              (pre1 ++ pins :: (pre2 ++ p :: ext)) (pre2 ++ p :: ext) pins
              ⟨evs', Outcome.aborted, ext⟩ (hre1 (pre2 ++ p :: ext)) (hre2 ext)

theorem write_loop_aborted_spec (spi : Nat → Nat) :
    ∀ (c idx : Nat) (prevClk : Bool) (trace : List Nat) (evs : List Event) (rest : List Nat),
      write_loop spi c idx prevClk trace = some ⟨evs, Outcome.aborted, rest⟩ →
      ∃ pre p, trace = pre ++ p :: rest ∧ Nat.testBit p PIN_REQ = true ∧
        ∀ ext, write_loop spi c idx prevClk (pre ++ p :: ext) =
          some ⟨evs, Outcome.aborted, ext⟩ := by
  intro c
  induction c with
  | zero =>
    intro idx prevClk trace evs rest h
    rw [write_loop] at h
    cases hw : wait_clk_edge prevClk trace with
    | none => rw [hw] at h; exact absurd h (by simp)
    | some w =>
      rw [hw] at h
      cases w with
      | aborted rest0 =>
        simp only [Option.some.injEq, RunResult.mk.injEq] at h
        obtain ⟨rfl, -, rfl⟩ := h
        obtain ⟨pre, p, htr, hp, hre⟩ := wait_clk_edge_aborted_spec prevClk trace rest0 hw
        refine ⟨pre, p, htr, hp, ?_⟩
        intro ext
        exact write_loop_aborted_eq spi 0 idx prevClk (pre ++ p :: ext) ext (hre ext)
      | edge pins rest0 => simp at h
  | succ c' ih =>
    intro idx prevClk trace evs rest h
    rw [write_loop] at h
    cases hw : wait_clk_edge prevClk trace with
    | none => rw [hw] at h; exact absurd h (by simp)
    | some w =>
      rw [hw] at h
      cases w with
      | aborted rest0 =>
        simp only [Option.some.injEq, RunResult.mk.injEq] at h
        obtain ⟨rfl, -, rfl⟩ := h
        obtain ⟨pre, p, htr, hp, hre⟩ := wait_clk_edge_aborted_spec prevClk trace rest0 hw
        refine ⟨pre, p, htr, hp, ?_⟩
        intro ext
        exact write_loop_aborted_eq spi (c' + 1) idx prevClk (pre ++ p :: ext) ext (hre ext)
      | edge pins rest0 =>
        simp only [] at h
        cases hr : write_loop spi c' (idx + 1) (Nat.testBit pins PIN_CLK) rest0 with
        | none => rw [hr] at h; exact absurd h (by simp)
        | some r' =>
          rw [hr] at h
          simp only [Option.some.injEq, RunResult.mk.injEq] at h
          obtain ⟨hevs, hout, hrest⟩ := h
          rcases r' with ⟨evs', out', rest'⟩
          simp only at hevs hout hrest
          subst hevs; subst hout; subst hrest
          obtain ⟨pre2, p, htr2, hp, hre2⟩ :=
            ih (idx + 1) (Nat.testBit pins PIN_CLK) rest0 evs' rest' hr
          obtain ⟨pre1, htr1, hre1⟩ := wait_clk_edge_edge_spec prevClk trace rest0 pins hw
          refine ⟨pre1 ++ pins :: pre2, p, ?_, hp, ?_⟩
          · rw [htr1, htr2]
            simp
          · intro ext
            have hlist : (pre1 ++ pins :: pre2) ++ p :: ext =
                pre1 ++ pins :: (pre2 ++ p :: ext) := by simp
            rw [hlist]
            exact write_loop_succ_some spi c' idx prevClk
              (pre1 ++ pins :: (pre2 ++ p :: ext)) (pre2 ++ p :: ext) pins
              ⟨evs', Outcome.aborted, ext⟩ (hre1 (pre2 ++ p :: ext)) (hre2 ext)

theorem runRead_aborted_spec (spi : Nat → Nat) (pins c : Nat) (trace : List Nat)
    (evs : List Event) (rest : List Nat)
    (h : runRead spi pins c trace = some ⟨evs, Outcome.aborted, rest⟩) :
    ∃ pre p, trace = pre ++ p :: rest ∧ Nat.testBit p PIN_REQ = true ∧
      ∀ ext, runRead spi pins c (pre ++ p :: ext) = some ⟨evs, Outcome.aborted, ext⟩ := by
  cases hr : read_loop spi (pins &&& (1 <<< PIN_SS)) c 0 (Nat.testBit pins PIN_CLK) trace with
  | none => rw [runRead, hr] at h; exact absurd h (by simp)
  | some r' =>
    rw [runRead, hr] at h
    rcases r' with ⟨evs', out', rest'⟩
    simp only [Option.some.injEq, RunResult.mk.injEq] at h
    obtain ⟨hevs, hout, hrest⟩ := h
    subst hevs; subst hout; subst hrest
    obtain ⟨pre, p, htr, hp, hre⟩ :=
      read_loop_aborted_spec spi (pins &&& (1 <<< PIN_SS)) c 0
        (Nat.testBit pins PIN_CLK) trace evs' rest' hr
    refine ⟨pre, p, htr, hp, ?_⟩
    intro ext
    rw [runRead, hre ext]

theorem runWrite_aborted_spec (spi : Nat → Nat) (pins c : Nat) (trace : List Nat)
    (evs : List Event) (rest : List Nat)
    (h : runWrite spi pins c trace = some ⟨evs, Outcome.aborted, rest⟩) :
    ∃ pre p, trace = pre ++ p :: rest ∧ Nat.testBit p PIN_REQ = true ∧
      ∀ ext, runWrite spi pins c (pre ++ p :: ext) = some ⟨evs, Outcome.aborted, ext⟩ := by
  obtain ⟨pre, p, htr, hp, hre⟩ :=
    write_loop_aborted_spec spi c 0 (Nat.testBit pins PIN_CLK) trace evs rest h
  exact ⟨pre, p, htr, hp, fun ext => hre ext⟩

theorem control_cmd_aborted_spec (sub pins : Nat) (prevClk : Bool) (trace : List Nat)
    (evs : List Event) (rest : List Nat)
    (h : control_cmd sub pins prevClk trace = some ⟨evs, Outcome.aborted, rest⟩) :
    ∃ pre p, trace = pre ++ p :: rest ∧ Nat.testBit p PIN_REQ = true ∧
      ∀ ext, control_cmd sub pins prevClk (pre ++ p :: ext) =
        some ⟨evs, Outcome.aborted, ext⟩ := by
  by_cases h0 : sub = 0
  · rw [control_cmd, if_pos h0] at h
    simp at h
  · by_cases h1 : sub = 1
    · rw [control_cmd, if_neg h0, if_pos h1] at h
      cases hw : wait_clk_edge prevClk trace with
      | none => rw [hw] at h; exact absurd h (by simp)
      | some w =>
        rw [hw] at h
        cases w with
        | aborted rest0 =>
          simp only [Option.some.injEq, RunResult.mk.injEq] at h
          obtain ⟨hevs, -, hrest⟩ := h
          subst hevs; subst hrest
          obtain ⟨pre, p, htr, hp, hre⟩ := wait_clk_edge_aborted_spec prevClk trace rest0 hw
          refine ⟨pre, p, htr, hp, ?_⟩
          intro ext
          rw [control_cmd, if_neg h0, if_pos h1, hre ext]
        | edge pins2 rest0 =>
          cases rest0 with
          | nil => simp at h
          | cons s r0 => simp at h
    · by_cases h2 : sub = 2
      · rw [control_cmd, if_neg h0, if_neg h1, if_pos h2] at h
        simp at h
      · rw [control_cmd, if_neg h0, if_neg h1, if_neg h2] at h
        simp at h

theorem request_body_aborted_spec (spi : Nat → Nat) (pins : Nat) (trace : List Nat)
    (evs : List Event) (rest : List Nat)
    (h : request_body spi pins trace = some ⟨evs, Outcome.aborted, rest⟩) :
    ∃ pre p, trace = pre ++ p :: rest ∧ Nat.testBit p PIN_REQ = true ∧
      ∀ ext, request_body spi pins (pre ++ p :: ext) = some ⟨evs, Outcome.aborted, ext⟩ := by
  cases hd : decode_first pins with
  | short read c =>
    simp only [request_body, hd] at h
    by_cases hread : read = true
    · rw [if_pos hread] at h
      obtain ⟨pre, p, htr, hp, hre⟩ := runRead_aborted_spec spi pins c trace evs rest h
      refine ⟨pre, p, htr, hp, ?_⟩
      intro ext
      simp only [request_body, hd]
      rw [if_pos hread]
      exact hre ext
    · rw [if_neg hread] at h
      obtain ⟨pre, p, htr, hp, hre⟩ := runWrite_aborted_spec spi pins c trace evs rest h
      refine ⟨pre, p, htr, hp, ?_⟩
      intro ext
      simp only [request_body, hd]
      rw [if_neg hread]
      exact hre ext
  | extended hi =>
    simp only [request_body, hd] at h
    cases hw : wait_clk_edge (Nat.testBit pins PIN_CLK) trace with
    | none => rw [hw] at h; exact absurd h (by simp)
    | some w =>
      rw [hw] at h
      cases w with
      | aborted rest0 =>
        simp only [Option.some.injEq, RunResult.mk.injEq] at h
        obtain ⟨hevs, -, hrest⟩ := h
        subst hevs; subst hrest
        obtain ⟨pre, p, htr, hp, hre⟩ :=
          wait_clk_edge_aborted_spec (Nat.testBit pins PIN_CLK) trace rest0 hw
        refine ⟨pre, p, htr, hp, ?_⟩
        intro ext
        simp only [request_body, hd, hre ext]
      | edge pins2 rest0 =>
        simp only [] at h
        by_cases hdir : (decode_second hi pins2).1 = true
        · rw [if_pos hdir] at h
          obtain ⟨preR, p, htrR, hp, hreR⟩ :=
            runRead_aborted_spec spi pins2 (decode_second hi pins2).2 rest0 evs rest h
          obtain ⟨preE, htrE, hreE⟩ :=
            wait_clk_edge_edge_spec (Nat.testBit pins PIN_CLK) trace rest0 pins2 hw
          refine ⟨preE ++ pins2 :: preR, p, ?_, hp, ?_⟩
          · rw [htrE, htrR]
            simp
          · intro ext
            have hlist : (preE ++ pins2 :: preR) ++ p :: ext =
                preE ++ pins2 :: (preR ++ p :: ext) := by simp
            rw [hlist]
            simp only [request_body, hd, hreE (preR ++ p :: ext)]
            rw [if_pos hdir]
            exact hreR ext
        · rw [if_neg hdir] at h
          obtain ⟨preR, p, htrR, hp, hreR⟩ :=
            runWrite_aborted_spec spi pins2 (decode_second hi pins2).2 rest0 evs rest h
          obtain ⟨preE, htrE, hreE⟩ :=
            wait_clk_edge_edge_spec (Nat.testBit pins PIN_CLK) trace rest0 pins2 hw
          refine ⟨preE ++ pins2 :: preR, p, ?_, hp, ?_⟩
          · rw [htrE, htrR]
            simp
          · intro ext
            have hlist : (preE ++ pins2 :: preR) ++ p :: ext =
                preE ++ pins2 :: (preR ++ p :: ext) := by simp
            rw [hlist]
            simp only [request_body, hd, hreE (preR ++ p :: ext)]
            rw [if_neg hdir]
            exact hreR ext
  | control sub =>
    simp only [request_body, hd] at h
    obtain ⟨pre, p, htr, hp, hre⟩ :=
      control_cmd_aborted_spec sub pins (Nat.testBit pins PIN_CLK) trace evs rest h
    refine ⟨pre, p, htr, hp, ?_⟩
    intro ext
    simp only [request_body, hd]
    exact hre ext

theorem handle_request_aborted_spec (spi : Nat → Nat) (trace : List Nat) (r : RunResult)
    (h : handle_request spi trace = some r) (ha : r.outcome = Outcome.aborted) :
    ∃ pre p, trace = pre ++ p :: r.rest ∧ Nat.testBit p PIN_REQ = true ∧
      ∀ ext, handle_request spi (pre ++ p :: ext) =
        some ⟨r.events, Outcome.aborted, ext⟩ := by
  cases hq : wait_req_low trace with
  | none => rw [handle_request, hq] at h; exact absurd h (by simp)
  | some pr =>
    obtain ⟨pins, rest1⟩ := pr
    simp only [handle_request, hq] at h
    cases hb : request_body spi pins rest1 with
    | none => rw [hb] at h; exact absurd h (by simp)
    | some rb =>
      rw [hb] at h
      rcases rb with ⟨evsB, outB, restB⟩
      cases outB with
      | completed =>
        simp only [] at h
        cases whr : wait_req_high restB with
        | none => rw [whr] at h; exact absurd h (by simp)
        | some rest2 =>
          rw [whr] at h
          simp only [Option.some.injEq] at h
          rw [← h] at ha
          simp at ha
      | aborted =>
        simp only [Option.some.injEq] at h
        subst h
        obtain ⟨pre2, p, htr2, hp, hre2⟩ :=
          request_body_aborted_spec spi pins rest1 evsB restB hb
        obtain ⟨pre1, htr1, hre1⟩ := wait_req_low_spec trace rest1 pins hq
        refine ⟨pre1 ++ pins :: pre2, p, ?_, hp, ?_⟩
        · rw [htr1, htr2]
          simp
        · intro ext
          have hlist : (pre1 ++ pins :: pre2) ++ p :: ext =
              pre1 ++ pins :: (pre2 ++ p :: ext) := by simp
          rw [hlist]
          simp only [handle_request, hre1 (pre2 ++ p :: ext), hre2 ext]

/-- Claim C2: whenever a request run is aborted because REQ was observed
deasserted during a clock-edge wait (in the extended-header wait, between
data bytes, or in the card-present wait), the handler returns at that very
sample: the trace splits as a consumed prefix ending in the REQ-high
sample followed by the untouched remainder, and re-running the handler on
the consumed prefix with any continuation returns the same events (no
further SPI data-register write, no bus drive, no error event) with the
continuation untouched; afterwards the service loop tri-states and clears
the data bus before the next request is handled. -/
theorem c2_abort_immediate_and_silent (spi : Nat → Nat) (trace : List Nat) (r : RunResult)
    (h : handle_request spi trace = some r) (ha : r.outcome = Outcome.aborted) :
    (∃ pre p, trace = pre ++ p :: r.rest ∧ Nat.testBit p PIN_REQ = true ∧
       ∀ ext, handle_request spi (pre ++ p :: ext) =
         some ⟨r.events, Outcome.aborted, ext⟩) ∧
    service_request spi trace =
      some (Event.ledOn :: r.events ++
              [Event.busDirIn, Event.busClr, Event.spiDrain, Event.ledOff],
            Outcome.aborted, r.rest) := by
  refine ⟨handle_request_aborted_spec spi trace r h ha, ?_⟩
  simp only [service_request, h, ha]

/-- Witness for C2 on a concrete aborted run (short read aborted before the
first byte's clock edge). -/
theorem c2_witness :
    (∃ pre p, ([0x40, 0x800] : List Nat) = pre ++ p :: ([] : List Nat) ∧
       Nat.testBit p PIN_REQ = true ∧
       ∀ ext, handle_request spiZero (pre ++ p :: ext) =
         some ⟨[Event.spiWr 0xFF, Event.spiRd 0], Outcome.aborted, ext⟩) ∧
    service_request spiZero [0x40, 0x800] =
      some (Event.ledOn :: [Event.spiWr 0xFF, Event.spiRd 0] ++
              [Event.busDirIn, Event.busClr, Event.spiDrain, Event.ledOff],
            Outcome.aborted, []) :=
  c2_abort_immediate_and_silent spiZero [0x40, 0x800]
    ⟨[Event.spiWr 0xFF, Event.spiRd 0], Outcome.aborted, []⟩ (by decide) (by decide)

/-! ## The bridge never touches the cross-core mutex (C5, amended) -/

theorem read_loop_mutex_free (spi : Nat → Nat) (prevSS : Nat) :
    ∀ (c idx : Nat) (prevClk : Bool) (trace : List Nat) (r : RunResult),
      read_loop spi prevSS c idx prevClk trace = some r →
      r.events.all isMutexFree = true := by
  intro c
  induction c with
  | zero =>
    intro idx prevClk trace r h
    rw [read_loop] at h
    cases hw : wait_clk_edge prevClk trace with
    | none => rw [hw] at h; exact absurd h (by simp)
    | some w =>
      rw [hw] at h
      cases w with
      | aborted rest =>
        simp only [Option.some.injEq] at h
        rw [← h]
        rfl
      | edge pins rest =>
        simp only [Option.some.injEq] at h
        rw [← h]
        rfl
  | succ c' ih =>
    intro idx prevClk trace r h
    rw [read_loop] at h
    cases hw : wait_clk_edge prevClk trace with
    | none => rw [hw] at h; exact absurd h (by simp)
    | some w =>
      rw [hw] at h
      cases w with
      | aborted rest =>
        simp only [Option.some.injEq] at h
        rw [← h]
        rfl
      | edge pins rest =>
        simp only [] at h
        cases hr : read_loop spi prevSS c' (idx + 1) (Nat.testBit pins PIN_CLK) rest with
        | none => rw [hr] at h; exact absurd h (by simp)
        | some r' =>
          rw [hr] at h
          simp only [Option.some.injEq] at h
          rw [← h]
          have := ih (idx + 1) (Nat.testBit pins PIN_CLK) rest r' hr
          simp [List.all_cons, isMutexFree, this]

theorem write_loop_mutex_free (spi : Nat → Nat) :
    ∀ (c idx : Nat) (prevClk : Bool) (trace : List Nat) (r : RunResult),
      write_loop spi c idx prevClk trace = some r →
      r.events.all isMutexFree = true := by
  intro c
  induction c with
  | zero =>
    intro idx prevClk trace r h
    rw [write_loop] at h
    cases hw : wait_clk_edge prevClk trace with
    | none => rw [hw] at h; exact absurd h (by simp)
    | some w =>
      rw [hw] at h
      cases w with
      | aborted rest =>
        simp only [Option.some.injEq] at h
        rw [← h]
        rfl
      | edge pins rest =>
        simp only [Option.some.injEq] at h
        rw [← h]
        rfl
  | succ c' ih =>
    intro idx prevClk trace r h
    rw [write_loop] at h
    cases hw : wait_clk_edge prevClk trace with
    | none => rw [hw] at h; exact absurd h (by simp)
    | some w =>
      rw [hw] at h
      cases w with
      | aborted rest =>
        simp only [Option.some.injEq] at h
        rw [← h]
        rfl
      | edge pins rest =>
        simp only [] at h
        cases hr : write_loop spi c' (idx + 1) (Nat.testBit pins PIN_CLK) rest with
        | none => rw [hr] at h; exact absurd h (by simp)
        | some r' =>
          rw [hr] at h
          simp only [Option.some.injEq] at h
          rw [← h]
          have := ih (idx + 1) (Nat.testBit pins PIN_CLK) rest r' hr
          simp [List.all_cons, isMutexFree, this]

theorem runRead_mutex_free (spi : Nat → Nat) (pins c : Nat) (trace : List Nat)
    (r : RunResult) (h : runRead spi pins c trace = some r) :
    r.events.all isMutexFree = true := by
  cases hr : read_loop spi (pins &&& (1 <<< PIN_SS)) c 0 (Nat.testBit pins PIN_CLK) trace with
  | none => rw [runRead, hr] at h; exact absurd h (by simp)
  | some r' =>
    rw [runRead, hr] at h
    simp only [Option.some.injEq] at h
    rw [← h]
    have := read_loop_mutex_free spi (pins &&& (1 <<< PIN_SS)) c 0
      (Nat.testBit pins PIN_CLK) trace r' hr
    simp [List.all_cons, isMutexFree, this]

theorem runWrite_mutex_free (spi : Nat → Nat) (pins c : Nat) (trace : List Nat)
    (r : RunResult) (h : runWrite spi pins c trace = some r) :
    r.events.all isMutexFree = true :=
  write_loop_mutex_free spi c 0 (Nat.testBit pins PIN_CLK) trace r h

theorem control_cmd_mutex_free (sub pins : Nat) (prevClk : Bool) (trace : List Nat)
    (r : RunResult) (h : control_cmd sub pins prevClk trace = some r) :
    r.events.all isMutexFree = true := by
  by_cases h0 : sub = 0
  · rw [control_cmd, if_pos h0] at h
    simp only [Option.some.injEq] at h
    rw [← h]
    rfl
  · by_cases h1 : sub = 1
    · rw [control_cmd, if_neg h0, if_pos h1] at h
      cases hw : wait_clk_edge prevClk trace with
      | none => rw [hw] at h; exact absurd h (by simp)
      | some w =>
        rw [hw] at h
        cases w with
        | aborted rest =>
          simp only [Option.some.injEq] at h
          rw [← h]
          rfl
        | edge pins2 rest =>
          cases rest with
          | nil => exact absurd h (by simp)
          | cons s r0 =>
            simp only [Option.some.injEq] at h
            rw [← h]
            rfl
    · by_cases h2 : sub = 2
      · rw [control_cmd, if_neg h0, if_neg h1, if_pos h2] at h
        simp only [Option.some.injEq] at h
        rw [← h]
        rfl
      · rw [control_cmd, if_neg h0, if_neg h1, if_neg h2] at h
        simp only [Option.some.injEq] at h
        rw [← h]
        rfl

theorem request_body_mutex_free (spi : Nat → Nat) (pins : Nat) (trace : List Nat)
    (r : RunResult) (h : request_body spi pins trace = some r) :
    r.events.all isMutexFree = true := by
  cases hd : decode_first pins with
  | short read c =>
    simp only [request_body, hd] at h
    by_cases hread : read = true
    · rw [if_pos hread] at h
      exact runRead_mutex_free spi pins c trace r h
    · rw [if_neg hread] at h
      exact runWrite_mutex_free spi pins c trace r h
  | extended hi =>
    simp only [request_body, hd] at h
    cases hw : wait_clk_edge (Nat.testBit pins PIN_CLK) trace with
    | none => rw [hw] at h; exact absurd h (by simp)
    | some w =>
      rw [hw] at h
      cases w with
      | aborted rest =>
        simp only [Option.some.injEq] at h
        rw [← h]
        rfl
      | edge pins2 rest =>
        simp only [] at h
        by_cases hdir : (decode_second hi pins2).1 = true
        · rw [if_pos hdir] at h
          exact runRead_mutex_free spi pins2 (decode_second hi pins2).2 rest r h
        · rw [if_neg hdir] at h
          exact runWrite_mutex_free spi pins2 (decode_second hi pins2).2 rest r h
  | control sub =>
    simp only [request_body, hd] at h
    exact control_cmd_mutex_free sub pins (Nat.testBit pins PIN_CLK) trace r h

/-- Claim C5 (amended): a bridge-mode request run never performs any
operation on the cross-core SPI mutex — its SPI transactions are executed
unguarded; mutual exclusion between the host bridge and the network
service comes solely from the reset-based mode arbitration, exactly as the
header comment next to spi_mutex in main.h states. -/
theorem c5_bridge_never_takes_mutex (spi : Nat → Nat) (trace : List Nat) (r : RunResult)
    (h : handle_request spi trace = some r) :
    r.events.all isMutexFree = true := by
  cases hq : wait_req_low trace with
  | none => rw [handle_request, hq] at h; exact absurd h (by simp)
  | some pr =>
    obtain ⟨pins, rest1⟩ := pr
    simp only [handle_request, hq] at h
    cases hb : request_body spi pins rest1 with
    | none => rw [hb] at h; exact absurd h (by simp)
    | some rb =>
      rw [hb] at h
      have hmf := request_body_mutex_free spi pins rest1 rb hb
      rcases rb with ⟨evsB, outB, restB⟩
      cases outB with
      | aborted =>
        simp only [Option.some.injEq] at h
        rw [← h]
        exact hmf
      | completed =>
        simp only [] at h
        cases whr : wait_req_high restB with
        | none => rw [whr] at h; exact absurd h (by simp)
        | some rest2 =>
          rw [whr] at h
          simp only [Option.some.injEq] at h
          rw [← h]
          simp only at hmf
          simp [List.all_append, hmf, isMutexFree]

/-- Witness for C5 (amended) on a concrete completed write run. -/
theorem c5_amended_witness :
    ([Event.spiWr 0, Event.spiRd 0, Event.spiWr 0, Event.spiRd 0,
      Event.cdetEnable] : List Event).all isMutexFree = true :=
  c5_bridge_never_takes_mutex spiZero [0x01, 0x400, 0, 0x800]
    ⟨[Event.spiWr 0, Event.spiRd 0, Event.spiWr 0, Event.spiRd 0, Event.cdetEnable],
     Outcome.completed, []⟩ (by decide)

end AmigaSpi
